import Mathlib

/-
Verification of the qlib TCTS model (qlib/contrib/model/pytorch_tcts.py) and
the recorder online-tagging utility (qlib/workflow/online/utils.py).

The embedding works over rational numbers: a tensor of shape [N] is a
List Rat, a tensor of shape [N, M] is a List (List Rat) in row-major order
(one inner list per sample).  Neural networks appear as abstract functions
from a feature row to an output (their pointwise forward semantics), since
the claims below are about the training and inference logic built around
them, not about the GRU or MLP weight arithmetic itself.  The real-valued
log and exp maps are passed in as function parameters so that every
definition stays executable.
-/

namespace Qlib

/-- Arithmetic mean of a list of rationals, as computed by torch.mean and
np.mean; the empty list yields 0 by the division convention of Rat. -/
def mean (l : List ℚ) : ℚ := l.sum / l.length

/-- Index of the first maximal element of a list, the semantics of
torch.argmax(w, 1) applied to one row.  Returns 0 on the empty list. -/
def argmaxIdx : List ℚ → Nat
  | [] => 0
  | [_] => 0
  | x :: y :: t =>
    if (y :: t).getD (argmaxIdx (y :: t)) 0 ≤ x then 0 else argmaxIdx (y :: t) + 1

theorem argmaxIdx_is_max : ∀ (l : List ℚ) (j : Nat), j < l.length →
    l.getD j 0 ≤ l.getD (argmaxIdx l) 0 := by
  intro l
  induction l with
  | nil => intro j h; simp at h
  | cons x t ih =>
    cases t with
    | nil =>
      intro j h
      simp only [List.length_cons, List.length_nil] at h
      interval_cases j
      simp [argmaxIdx]
    | cons y s =>
      intro j h
      by_cases hc : (y :: s).getD (argmaxIdx (y :: s)) 0 ≤ x
      · have harg : argmaxIdx (x :: y :: s) = 0 := by
          simp only [argmaxIdx]
          rw [if_pos hc]
        rw [harg]
        cases j with
        | zero => simp
        | succ k =>
          have hk : k < (y :: s).length := by
            simpa [Nat.succ_lt_succ_iff] using h
          have := ih k hk
          simpa using le_trans this hc
      · have harg : argmaxIdx (x :: y :: s) = argmaxIdx (y :: s) + 1 := by
          simp only [argmaxIdx]
          rw [if_neg hc]
        rw [harg]
        push_neg at hc
        cases j with
        | zero => simpa using le_of_lt hc
        | succ k =>
          have hk : k < (y :: s).length := by
            simpa [Nat.succ_lt_succ_iff] using h
          simpa using ih k hk

namespace TCTS

/-- Embedding of TCTS.loss_fn (pytorch_tcts.py lines 150-154):
loc = torch.argmax(weight, 1); loss = (pred - label[arange(n), loc]) ** 2;
return torch.mean(loss). -/
def loss_fn (pred : List ℚ) (label : List (List ℚ)) (weight : List (List ℚ)) : ℚ :=
  let loc := weight.map argmaxIdx
  mean ((pred.zip (label.zip loc)).map
    (fun pll => (pll.1 - pll.2.1.getD pll.2.2 0) ^ 2))

/-- Row i of the matrix dis.transpose(0, 1), where
dis = some_pred - label.transpose(0, 1) (pytorch_tcts.py lines 188 and 219):
entry (i, j) is some_pred i - label i j. -/
def dis_rows (pred : List ℚ) (label : List (List ℚ)) : List (List ℚ) :=
  (pred.zip label).map (fun pl => pl.2.map (fun y => pl.1 - y))

/-- Row-wise embedding of
torch.cat((feature, dis.transpose(0, 1), label, pred.view(-1, 1)), 1)
(pytorch_tcts.py lines 189 and 220). -/
def weight_input_rows (pred : List ℚ) (feature label : List (List ℚ)) :
    List (List ℚ) :=
  (feature.zip ((dis_rows pred label).zip (label.zip pred))).map
    (fun q => q.1 ++ q.2.1 ++ q.2.2.1 ++ [q.2.2.2])

/-- The weight matrix produced inside one phase-A mini-batch step of
TCTS.train_epoch (lines 185-190): the reference network output init_pred
feeds both the residual block and the final column of the weight-network
input, and W is the row-wise weight network forward map. -/
def phaseA_weights (G : List ℚ → ℚ) (W : List ℚ → List ℚ)
    (feature label : List (List ℚ)) : List (List ℚ) :=
  (weight_input_rows (feature.map G) feature label).map W

/-- Embedding of the phase-A loss for one mini-batch of TCTS.train_epoch
(pytorch_tcts.py lines 185-192).  G is the frozen reference forecast network
init_fore_model, F is the live forecast network fore_model, W the weight
network applied row-wise. -/
def train_epoch_phaseA_loss (G F : List ℚ → ℚ) (W : List ℚ → List ℚ)
    (feature label : List (List ℚ)) : ℚ :=
  let init_pred := feature.map G
  let pred := feature.map F
  let weight := (weight_input_rows init_pred feature label).map W
  loss_fn pred label weight

/-- The weight matrix produced inside one phase-B mini-batch step of
TCTS.train_epoch (lines 218-221): here the live forecast output pred feeds
the weight-network input. -/
def phaseB_weights (F : List ℚ → ℚ) (W : List ℚ → List ℚ)
    (feature label : List (List ℚ)) : List (List ℚ) :=
  (weight_input_rows (feature.map F) feature label).map W

/-- Embedding of the phase-B (weight update) loss for one mini-batch of the
validation split in TCTS.train_epoch (pytorch_tcts.py lines 215-224):
pred = fore_model(feature); weight = weight_model(weight_feature);
loc = argmax(weight, 1); valid_loss = mean((pred - label[:, 0]) ** 2);
loss = mean(-valid_loss * log(weight[arange(n), loc])).
lg is the real logarithm, abstracted as a function parameter. -/
def train_epoch_phaseB_loss (F : List ℚ → ℚ) (W : List ℚ → List ℚ)
    (lg : ℚ → ℚ) (feature label : List (List ℚ)) : ℚ :=
  let pred := feature.map F
  let weight := (weight_input_rows pred feature label).map W
  let loc := weight.map argmaxIdx
  let valid_loss := mean ((pred.zip label).map (fun pl => (pl.1 - pl.2.getD 0 0) ^ 2))
  mean ((weight.zip loc).map (fun wl => -valid_loss * lg (wl.1.getD wl.2 0)))

end TCTS

/-- Zipping a list with its own image under f and mapping g is mapping the
combined function. -/
theorem zip_map_self_map (l : List α) (f : α → β) (g : α × β → γ) :
    (l.zip (l.map f)).map g = l.map (fun a => g (a, f a)) := by
  induction l with
  | nil => rfl
  | cons x t ih => simpa using ih

/-- Mapping over a triple zip whose first and third components are mapped. -/
theorem zip3_map_fst_thd {α β γ α' γ' δ : Type} (f : α → α') (g : γ → γ')
    (h : α' × (β × γ') → δ) :
    ∀ (l1 : List α) (l2 : List β) (l3 : List γ),
    ((l1.map f).zip (l2.zip (l3.map g))).map h
      = (l1.zip (l2.zip l3)).map (fun q => h (f q.1, (q.2.1, g q.2.2))) := by
  intro l1
  induction l1 with
  | nil => intro l2 l3; rfl
  | cons x t ih =>
    intro l2 l3
    cases l2 with
    | nil => rfl
    | cons y t2 =>
      cases l3 with
      | nil => rfl
      | cons z t3 => simpa using ih t2 t3

/-- Mapping over a triple zip whose third component is mapped. -/
theorem zip3_map_thd {α β γ γ' δ : Type} (g : γ → γ') (h : α × (β × γ') → δ) :
    ∀ (l1 : List α) (l2 : List β) (l3 : List γ),
    (l1.zip (l2.zip (l3.map g))).map h
      = (l1.zip (l2.zip l3)).map (fun q => h (q.1, (q.2.1, g q.2.2))) := by
  intro l1
  induction l1 with
  | nil => intro l2 l3; rfl
  | cons x t ih =>
    intro l2 l3
    cases l2 with
    | nil => rfl
    | cons y t2 =>
      cases l3 with
      | nil => rfl
      | cons z t3 => simpa using ih t2 t3

/-- C5: in phase A the forecast-training loss of a mini-batch is the mean over
samples of the squared difference between the live forecast F and the label at
the horizon index selected by hard argmax over the Weight-Network weights, and
the selected index carries the maximum weight of its row. -/
theorem C5_phaseA_loss_is_argmax_selected_mse
    (G F : List ℚ → ℚ) (W : List ℚ → List ℚ) (feature label : List (List ℚ)) :
    TCTS.train_epoch_phaseA_loss G F W feature label
      = mean ((feature.zip (label.zip (TCTS.phaseA_weights G W feature label))).map
          (fun q => (F q.1 - q.2.1.getD (argmaxIdx q.2.2) 0) ^ 2))
    ∧ (∀ w ∈ TCTS.phaseA_weights G W feature label,
        ∀ j < w.length, w.getD j 0 ≤ w.getD (argmaxIdx w) 0) := by
  constructor
  · unfold TCTS.train_epoch_phaseA_loss TCTS.loss_fn TCTS.phaseA_weights
    dsimp only
    rw [List.map_map]
    rw [zip3_map_fst_thd, zip3_map_thd]
    rfl
  · intro w _ j hj
    exact argmaxIdx_is_max w j hj

/-- Witness for C5 at a concrete batch of two samples with two horizons. -/
theorem C5_phaseA_loss_witness :
    TCTS.train_epoch_phaseA_loss (fun r => r.getD 0 0) (fun r => r.getD 0 0 + 1)
        (fun r => [r.getD 0 0, r.getD 1 0]) [[1, 2], [3, 4]] [[5, 6], [7, 8]]
      = mean (([[1, 2], [3, 4]].zip ([[5, 6], [7, 8]].zip
          (TCTS.phaseA_weights (fun r => r.getD 0 0)
            (fun r => [r.getD 0 0, r.getD 1 0]) [[1, 2], [3, 4]] [[5, 6], [7, 8]]))).map
          (fun q => ((fun r => r.getD 0 0 + 1) q.1 - q.2.1.getD (argmaxIdx q.2.2) 0) ^ 2)) :=
  (C5_phaseA_loss_is_argmax_selected_mse (fun r => r.getD 0 0) (fun r => r.getD 0 0 + 1)
    (fun r => [r.getD 0 0, r.getD 1 0]) [[1, 2], [3, 4]] [[5, 6], [7, 8]]).1

/-- C1: in phase B the Weight-Network loss of a validation mini-batch equals
the mean over samples of -valid_loss * log(weight at the argmax horizon),
where valid_loss is the mean squared error of the forecast against the label
at horizon index 0, and the argmax index carries the maximum weight. -/
theorem C1_phaseB_loss_formula
    (F : List ℚ → ℚ) (W : List ℚ → List ℚ) (lg : ℚ → ℚ)
    (feature label : List (List ℚ)) :
    TCTS.train_epoch_phaseB_loss F W lg feature label
      = mean ((TCTS.phaseB_weights F W feature label).map
          (fun w => -(mean (((feature.map F).zip label).map
              (fun pl => (pl.1 - pl.2.getD 0 0) ^ 2))) * lg (w.getD (argmaxIdx w) 0)))
    ∧ (∀ w ∈ TCTS.phaseB_weights F W feature label,
        ∀ j < w.length, w.getD j 0 ≤ w.getD (argmaxIdx w) 0) := by
  constructor
  · unfold TCTS.train_epoch_phaseB_loss TCTS.phaseB_weights
    dsimp only
    rw [zip_map_self_map]
  · intro w _ j hj
    exact argmaxIdx_is_max w j hj

/-- Witness for C1 at a concrete batch of two samples with two horizons. -/
theorem C1_phaseB_loss_witness :
    TCTS.train_epoch_phaseB_loss (fun r => r.getD 0 0)
        (fun r => [r.getD 0 0, r.getD 1 0]) (fun x => x - 1)
        [[1, 2], [3, 4]] [[5, 6], [7, 8]]
      = mean ((TCTS.phaseB_weights (fun r => r.getD 0 0)
            (fun r => [r.getD 0 0, r.getD 1 0]) [[1, 2], [3, 4]] [[5, 6], [7, 8]]).map
          (fun w => -(mean ((([[1, 2], [3, 4]].map (fun r => r.getD 0 0)).zip
              [[5, 6], [7, 8]]).map (fun pl => (pl.1 - pl.2.getD 0 0) ^ 2)))
            * (fun x => x - 1) (w.getD (argmaxIdx w) 0))) :=
  (C1_phaseB_loss_formula (fun r => r.getD 0 0) (fun r => [r.getD 0 0, r.getD 1 0])
    (fun x => x - 1) [[1, 2], [3, 4]] [[5, 6], [7, 8]]).1

namespace TCTS

/-- The in_features dimension the TCTS constructor passes to MLPModel for the
weight network (pytorch_tcts.py line 127): 360 + 2 * output_dim + 1.  The
constructor has d_feat in scope but does not use it here; the parameter is
kept to record that fact. -/
def weight_model_d_feat (_d_feat output_dim : Nat) : Nat := 360 + 2 * output_dim + 1

/-- Width of the weight-network input built by the trainer (lines 188-190):
torch.cat((feature, dis.transpose(0, 1), label, init_pred.view(-1, 1)), 1)
has feat_width + output_dim + output_dim + 1 columns, where feat_width is the
flattened feature width of the dataset. -/
def weight_feature_width (feat_width output_dim : Nat) : Nat :=
  feat_width + output_dim + output_dim + 1

/-- A linear layer accepts an input row exactly when the row width equals its
in_features; the first layer of the weight-network MLP therefore accepts the
trainer-built input exactly when the widths agree. -/
def weight_forward_shape_ok (d_feat output_dim feat_width : Nat) : Bool :=
  weight_feature_width feat_width output_dim == weight_model_d_feat d_feat output_dim

end TCTS

/-- C10: the weight network is constructed with fixed input width
360 + 2 * output_dim + 1 independently of the configured d_feat, while the
trainer concatenates feat_width + 2 * output_dim + 1 columns, so the
weight-network forward pass is shape-correct exactly when the flattened
feature width is 360. -/
theorem C10_weight_input_width_fixed (d1 d2 output_dim feat_width : Nat) :
    TCTS.weight_model_d_feat d1 output_dim = TCTS.weight_model_d_feat d2 output_dim
    ∧ (TCTS.weight_forward_shape_ok d1 output_dim feat_width = true ↔ feat_width = 360) := by
  constructor
  · rfl
  · unfold TCTS.weight_forward_shape_ok TCTS.weight_feature_width TCTS.weight_model_d_feat
    simp only [beq_iff_eq]
    omega

/-- Witness for C10: with the default d_feat = 6 and output_dim = 5, the
weight-network forward pass accepts a 360-wide flattened feature block. -/
theorem C10_weight_input_width_witness :
    TCTS.weight_forward_shape_ok 6 5 360 = true ↔ (360 : Nat) = 360 :=
  (C10_weight_input_width_fixed 6 20 5 360).2

namespace TCTS

/-- The observable construction state of TCTS.__init__ that the claims refer
to: whether the forecast and weight networks (and hence their parameters)
have been allocated, and which optimizers were built. -/
structure InitState where
  fore_alloc : Bool
  weight_alloc : Bool
  fore_opt : Option String
  weight_opt : Option String

/-- Lower-casing of a configured optimizer name, the semantics of the Python
str.lower() call for the ASCII names involved. -/
def pyLower (s : String) : String := String.mk (s.data.map Char.toLower)

/-- Embedding of the optimizer dispatch in TCTS.__init__
(pytorch_tcts.py lines 133-144): adam and gd (case-insensitive) are accepted,
anything else raises NotImplementedError with the shown message. -/
def mkOptimizer (name : String) : Except String String :=
  if pyLower name = "adam" then Except.ok "adam"
  else if pyLower name = "gd" then Except.ok "sgd"
  else Except.error ("optimizer " ++ name ++ " is not supported!")

/-- Embedding of the construction order of TCTS.__init__
(pytorch_tcts.py lines 120-148): the GRU forecast network is allocated at
line 120 and the MLP weight network at line 126, both before the optimizer
kinds are checked at lines 133-144.  The result pairs the state reached when
__init__ returns or raises with the outcome. -/
def tctsInit (fore_optimizer weight_optimizer : String) :
    InitState × Except String Unit :=
  let s1 : InitState :=
    { fore_alloc := true, weight_alloc := false, fore_opt := none, weight_opt := none }
  let s2 : InitState := { s1 with weight_alloc := true }
  match mkOptimizer fore_optimizer with
  | Except.error e => (s2, Except.error e)
  | Except.ok o1 =>
    let s3 : InitState := { s2 with fore_opt := some o1 }
    match mkOptimizer weight_optimizer with
    | Except.error e => (s3, Except.error e)
    | Except.ok o2 => ({ s3 with weight_opt := some o2 }, Except.ok ())

end TCTS

/-- C3 counterexample: constructing with the unsupported optimizer kind
rmsprop does fail with the unsupported-configuration error, but at that point
both networks have already been allocated, refuting the claim that the
failure happens before any network parameter is allocated and that no partial
state is built. -/
theorem C3_counterexample_networks_allocated_before_check :
    (TCTS.tctsInit "rmsprop" "adam").2
        = Except.error "optimizer rmsprop is not supported!"
    ∧ (TCTS.tctsInit "rmsprop" "adam").1.fore_alloc = true
    ∧ (TCTS.tctsInit "rmsprop" "adam").1.weight_alloc = true := by
  refine ⟨rfl, by decide, by decide⟩

/-- C3 amended: for every optimizer kind (for either network) outside
adam/gd (case-insensitive), construction fails with the
unsupported-configuration error naming the offending kind, but only after
both networks have been allocated, so the allocated networks exist as partial
state at the moment of failure. -/
theorem C3_unsupported_optimizer_fails_after_alloc (fo wo : String) :
    (TCTS.pyLower fo ≠ "adam" ∧ TCTS.pyLower fo ≠ "gd" →
      (TCTS.tctsInit fo wo).2 = Except.error ("optimizer " ++ fo ++ " is not supported!")
      ∧ (TCTS.tctsInit fo wo).1.fore_alloc = true
      ∧ (TCTS.tctsInit fo wo).1.weight_alloc = true)
    ∧ (TCTS.pyLower wo ≠ "adam" ∧ TCTS.pyLower wo ≠ "gd" →
      (∃ e, (TCTS.tctsInit fo wo).2 = Except.error e)
      ∧ (TCTS.tctsInit fo wo).1.fore_alloc = true
      ∧ (TCTS.tctsInit fo wo).1.weight_alloc = true) := by
  constructor
  · intro hfo
    have hm : TCTS.mkOptimizer fo
        = Except.error ("optimizer " ++ fo ++ " is not supported!") := by
      unfold TCTS.mkOptimizer
      rw [if_neg hfo.1, if_neg hfo.2]
    unfold TCTS.tctsInit
    rw [hm]
    exact ⟨rfl, rfl, rfl⟩
  · intro hwo
    have hm : TCTS.mkOptimizer wo
        = Except.error ("optimizer " ++ wo ++ " is not supported!") := by
      unfold TCTS.mkOptimizer
      rw [if_neg hwo.1, if_neg hwo.2]
    unfold TCTS.tctsInit
    cases hfo : TCTS.mkOptimizer fo with
    | error e => exact ⟨⟨e, rfl⟩, rfl, rfl⟩
    | ok o1 =>
      rw [hm]
      exact ⟨⟨"optimizer " ++ wo ++ " is not supported!", rfl⟩, rfl, rfl⟩

/-- Witness for the amended C3 at the concrete unsupported kind sgd for the
weight network (the code only recognizes the spelling gd). -/
theorem C3_unsupported_optimizer_witness :
    ((TCTS.pyLower "sgd" ≠ "adam" ∧ TCTS.pyLower "sgd" ≠ "gd"))
    ∧ ((∃ e, (TCTS.tctsInit "adam" "sgd").2 = Except.error e)
      ∧ (TCTS.tctsInit "adam" "sgd").1.fore_alloc = true
      ∧ (TCTS.tctsInit "adam" "sgd").1.weight_alloc = true) :=
  ⟨by decide, (C3_unsupported_optimizer_fails_after_alloc "adam" "sgd").2 (by decide)⟩

namespace MLPModel

/-- One row of nn.Softmax: entry x becomes e x / sum of e over the row, with
e the real exponential abstracted as a positive function parameter. -/
def softmaxRow (e : ℚ → ℚ) (row : List ℚ) : List ℚ :=
  row.map (fun x => e x / (row.map e).sum)

/-- Embedding of MLPModel.forward (pytorch_tcts.py lines 365-370) at the
tensor-shape level: z is the [N, m] output of the self.mlp stack (m is the
output_dim of the final linear layer).  The code computes
self.softmax(self.mlp(x).squeeze()) with softmax = nn.Softmax(dim=1):
squeeze removes every dimension of size 1, and nn.Softmax(dim=1) raises a
dimension-out-of-range error on a tensor with fewer than two dimensions, so
the result is none when N = 1 or m = 1 and the row-wise softmax otherwise. -/
def forward (e : ℚ → ℚ) (m : Nat) (z : List (List ℚ)) :
    Option (List (List ℚ)) :=
  if z.length == 1 || m == 1 then none
  else some (z.map (softmaxRow e))

end MLPModel

/-- Sum of a list divided elementwise by a constant. -/
theorem list_sum_map_div (l : List ℚ) (c : ℚ) :
    (l.map (fun x => x / c)).sum = l.sum / c := by
  induction l with
  | nil => simp
  | cons x t ih => simp [ih, add_div]

/-- C6 counterexample: on a batch holding exactly one sample (with the
default output_dim = 5), MLPModel.forward raises instead of returning a
probability distribution, because squeeze drops the batch dimension and
nn.Softmax(dim=1) then sees a one-dimensional tensor. -/
theorem C6_counterexample_single_sample_batch :
    MLPModel.forward (fun _ => 1) 5 [[0, 0, 0, 0, 0]] = none := by
  rfl

/-- C6 amended: for every logits batch with at least two samples and at least
two horizons (rectangular, width m) and every positive exponential map, the
Weight-Network output is a valid probability distribution over the m horizons
for every sample: all entries nonnegative and each row summing to exactly 1. -/
theorem C6_softmax_rows_are_distributions
    (e : ℚ → ℚ) (m : Nat) (z : List (List ℚ))
    (hn : 2 ≤ z.length) (hm : 2 ≤ m) (hrect : ∀ r ∈ z, r.length = m)
    (hpos : ∀ x, 0 < e x) :
    ∃ w, MLPModel.forward e m z = some w
      ∧ w.length = z.length
      ∧ ∀ r ∈ w, r.length = m ∧ r.sum = 1 ∧ ∀ q ∈ r, 0 ≤ q := by
  have hz1 : (z.length == 1) = false := by
    rw [beq_eq_false_iff_ne]
    omega
  have hm1 : (m == 1) = false := by
    rw [beq_eq_false_iff_ne]
    omega
  refine ⟨z.map (MLPModel.softmaxRow e), ?_, by simp, ?_⟩
  · unfold MLPModel.forward
    rw [hz1, hm1]
    rfl
  · intro r hr
    rcases List.mem_map.mp hr with ⟨r0, hr0, rfl⟩
    have hlen : r0.length = m := hrect r0 hr0
    have hne : r0 ≠ [] := by
      intro hnil
      rw [hnil] at hlen
      simp at hlen
      omega
    have hsumpos : 0 < (r0.map e).sum := by
      refine List.sum_pos _ ?_ ?_
      · intro x hx
        rcases List.mem_map.mp hx with ⟨a, _, rfl⟩
        exact hpos a
      · simpa using hne
    have hsumne : (r0.map e).sum ≠ 0 := ne_of_gt hsumpos
    refine ⟨by simpa [MLPModel.softmaxRow] using hlen, ?_, ?_⟩
    · unfold MLPModel.softmaxRow
      have : r0.map (fun x => e x / (r0.map e).sum)
          = (r0.map e).map (fun y => y / (r0.map e).sum) := by
        rw [List.map_map]
        rfl
      rw [this, list_sum_map_div, div_self hsumne]
    · intro q hq
      rcases List.mem_map.mp hq with ⟨a, _, rfl⟩
      exact le_of_lt (div_pos (hpos a) hsumpos)

/-- Witness for the amended C6 on a concrete 2 by 2 logits batch with the
constant positive map e = 1: the output rows are valid distributions. -/
theorem C6_softmax_rows_witness :
    ∃ w, MLPModel.forward (fun _ => 1) 2 [[0, 3], [5, 7]] = some w
      ∧ w.length = ([[0, 3], [5, 7]] : List (List ℚ)).length
      ∧ ∀ r ∈ w, r.length = 2 ∧ r.sum = 1 ∧ ∀ q ∈ r, 0 ≤ q :=
  C6_softmax_rows_are_distributions (fun _ => 1) 2 [[0, 3], [5, 7]]
    (by decide) (by decide) (by decide) (fun x => by norm_num)

namespace OnlineToolR

/-- The online tag constant of OnlineTool (utils.py line 24). -/
def ONLINE_TAG : String := "online"

/-- The offline tag constant of OnlineTool (utils.py line 25). -/
def OFFLINE_TAG : String := "offline"

/-- Embedding of OnlineToolR.set_online_tag (utils.py lines 101-113):
every recorder in recs gets its online_status tag set to tag; a single
recorder is the singleton list.  Recorders are identified by Nat keys and the
tag store maps a recorder to its optional online_status tag. -/
def set_online_tag (tag : String) (recs : List Nat)
    (tags : Nat → Option String) : Nat → Option String :=
  fun r => if r ∈ recs then some tag else tags r

/-- Embedding of OnlineToolR.get_online_tag (utils.py lines 115-126):
the online_status tag of the recorder, defaulting to offline when unset. -/
def get_online_tag (tags : Nat → Option String) (r : Nat) : String :=
  (tags r).getD OFFLINE_TAG

/-- Embedding of OnlineToolR.reset_online_tag (utils.py lines 128-141):
first every recorder of the experiment is tagged offline, then the given
target recorders are tagged online. -/
def reset_online_tag (target expRecs : List Nat)
    (tags : Nat → Option String) : Nat → Option String :=
  set_online_tag ONLINE_TAG target (set_online_tag OFFLINE_TAG expRecs tags)

/-- Embedding of OnlineToolR.online_models (utils.py lines 143-150):
the recorders of the experiment whose online tag is online. -/
def online_models (expRecs : List Nat) (tags : Nat → Option String) : List Nat :=
  expRecs.filter (fun r => get_online_tag tags r == ONLINE_TAG)

end OnlineToolR

/-- C9: after reset_online_tag, every experiment recorder outside the target
list is tagged offline, every target recorder is tagged online, membership in
online_models is membership in both the experiment and the target list, and
when the targets belong to the experiment, online_models returns exactly the
given recorders. -/
theorem C9_reset_online_tag_exact
    (target expRecs : List Nat) (tags : Nat → Option String) (r : Nat) :
    (r ∈ expRecs → r ∉ target →
      OnlineToolR.get_online_tag (OnlineToolR.reset_online_tag target expRecs tags) r
        = OnlineToolR.OFFLINE_TAG)
    ∧ (r ∈ target →
      OnlineToolR.get_online_tag (OnlineToolR.reset_online_tag target expRecs tags) r
        = OnlineToolR.ONLINE_TAG)
    ∧ (r ∈ OnlineToolR.online_models expRecs (OnlineToolR.reset_online_tag target expRecs tags)
        ↔ r ∈ expRecs ∧ r ∈ target)
    ∧ (target ⊆ expRecs →
      (r ∈ OnlineToolR.online_models expRecs (OnlineToolR.reset_online_tag target expRecs tags)
        ↔ r ∈ target)) := by
  have hoff : ∀ x : Nat, x ∈ expRecs → x ∉ target →
      OnlineToolR.get_online_tag (OnlineToolR.reset_online_tag target expRecs tags) x
        = OnlineToolR.OFFLINE_TAG := by
    intro x hx hnt
    unfold OnlineToolR.reset_online_tag OnlineToolR.set_online_tag OnlineToolR.get_online_tag
    dsimp only
    rw [if_neg hnt, if_pos hx]
    rfl
  have hon : ∀ x : Nat, x ∈ target →
      OnlineToolR.get_online_tag (OnlineToolR.reset_online_tag target expRecs tags) x
        = OnlineToolR.ONLINE_TAG := by
    intro x hx
    unfold OnlineToolR.reset_online_tag OnlineToolR.set_online_tag OnlineToolR.get_online_tag
    dsimp only
    rw [if_pos hx]
    rfl
  have hmem : r ∈ OnlineToolR.online_models expRecs
        (OnlineToolR.reset_online_tag target expRecs tags)
      ↔ r ∈ expRecs ∧ r ∈ target := by
    unfold OnlineToolR.online_models
    rw [List.mem_filter]
    constructor
    · rintro ⟨hexp, htag⟩
      refine ⟨hexp, ?_⟩
      by_contra hnt
      rw [hoff r hexp hnt] at htag
      exact absurd (of_decide_eq_true htag) (by decide)
    · rintro ⟨hexp, htgt⟩
      refine ⟨hexp, ?_⟩
      rw [hon r htgt]
      decide
  refine ⟨hoff r, hon r, hmem, ?_⟩
  intro hsub
  rw [hmem]
  constructor
  · exact fun h => h.2
  · exact fun h => ⟨hsub h, h⟩

/-- Witness for C9: with experiment recorders 1 and 2 and target recorder 1,
recorder 1 is online afterwards exactly as a target member. -/
theorem C9_reset_online_tag_witness :
    (1 : Nat) ∈ OnlineToolR.online_models [1, 2]
        (OnlineToolR.reset_online_tag [1] [1, 2] (fun _ => none))
      ↔ (1 : Nat) ∈ ([1] : List Nat) :=
  (C9_reset_online_tag_exact [1] [1, 2] (fun _ => none) 1).2.2.2 (by decide)

namespace TCTS

/-- The two forecast-network parameter vectors alive during phase A of
TCTS.train_epoch: the live fore_model and the reference init_fore_model. -/
structure PhaseAState (P : Type) where
  fore_model : P
  init_fore_model : P

/-- Embedding of the phase-A parameter flow of TCTS.train_epoch
(pytorch_tcts.py lines 164-197): init_fore_model is produced once by
copy.deepcopy(self.fore_model) before the inner loops, giving an
independently owned parameter value; then, for steps passes over the batches,
each mini-batch applies one optimizer step upd to the live parameters only.
upd receives the reference parameters (which supply init_pred and the
weight-network input), the current live parameters and the batch. -/
def train_epoch_phaseA_run {P B : Type} (upd : P → P → B → P) (steps : Nat)
    (batches : List B) (fore0 : P) : PhaseAState P :=
  { init_fore_model := fore0
    fore_model :=
      (List.range steps).foldl
        (fun f _ => batches.foldl (fun g b => upd fore0 g b) f) fore0 }

end TCTS

/-- C8: the reference snapshot equals the snapshot-time live parameters and
is never mutated by the phase-A inner steps, for every update function,
step count and batch list; and the live parameters do move away from the
snapshot under a nontrivial update, so the two are genuinely independent. -/
theorem C8_reference_snapshot_frozen {P B : Type} (upd : P → P → B → P)
    (steps : Nat) (batches : List B) (fore0 : P) :
    (TCTS.train_epoch_phaseA_run upd steps batches fore0).init_fore_model = fore0
    ∧ (TCTS.train_epoch_phaseA_run (fun _ g _ => g + 1) 1 [()] (0 : ℚ)).fore_model
        ≠ (TCTS.train_epoch_phaseA_run (fun _ g _ => g + 1) 1 [()] (0 : ℚ)).init_fore_model := by
  constructor
  · rfl
  · norm_num [TCTS.train_epoch_phaseA_run, List.range_succ]

namespace TCTS

/-- The batch start offsets range(n)[::bs] of the TCTS loops
(pytorch_tcts.py lines 177, 210, 244 and 330): the multiples of the batch
size below n, in increasing order. -/
def sliceStarts (n bs : Nat) : List Nat :=
  (List.range n).filter (fun i => i % bs == 0)

/-- The batch starts actually processed by the training, validation and
evaluation loops, which break as soon as n - i < bs
(pytorch_tcts.py lines 179-180, 212-213 and 246-247), so a trailing batch
smaller than the batch size is dropped. -/
def keptStarts (n bs : Nat) : List Nat :=
  (sliceStarts n bs).takeWhile (fun i => decide (bs ≤ n - i))

/-- The exclusive end offset of an inference batch (pytorch_tcts.py lines
332-335): the trailing batch is extended to exactly fill the remainder. -/
def sliceEnd (n bs b : Nat) : Nat := if n - b < bs then n else b + bs

/-- The mini-batches processed by the training-style loops: full slices of
width bs at each kept start. -/
def trainChunks {α : Type} (bs : Nat) (xs : List α) : List (List α) :=
  (keptStarts xs.length bs).map (fun b => (xs.drop b).take bs)

/-- The mini-batches processed by TCTS.predict (lines 330-337). -/
def predictChunks {α : Type} (bs : Nat) (xs : List α) : List (List α) :=
  (sliceStarts xs.length bs).map
    (fun b => (xs.drop b).take (sliceEnd xs.length bs b - b))

/-- Embedding of TCTS.predict (pytorch_tcts.py lines 319-347): fails when the
model is not fitted; otherwise runs the eval-mode forecast network f over the
batches and concatenates the per-batch outputs in order. -/
def predict {α : Type} (fitted : Bool) (f : α → ℚ) (bs : Nat) (xs : List α) :
    Except String (List ℚ) :=
  if fitted = false then Except.error "model is not fitted yet!"
  else Except.ok (((predictChunks bs xs).map (List.map f)).flatten)

end TCTS

theorem sliceStarts_zero (bs : Nat) : TCTS.sliceStarts 0 bs = [] := rfl

theorem sliceStarts_eq_single (bs : Nat) :
    ∀ n, 0 < n → n ≤ bs → TCTS.sliceStarts n bs = [0] := by
  intro n
  induction n with
  | zero => intro h; omega
  | succ m ih =>
    intro _ hle
    rcases Nat.eq_zero_or_pos m with h0 | hm
    · subst h0
      simp [TCTS.sliceStarts, List.range_succ, Nat.zero_mod]
    · have hmb : (m % bs == 0) = false := by
        rw [beq_eq_false_iff_ne, Nat.mod_eq_of_lt (by omega)]
        omega
      have hL : TCTS.sliceStarts (m + 1) bs
          = (List.range (m + 1)).filter (fun i => i % bs == 0) := rfl
      rw [hL, List.range_succ, List.filter_append]
      have hm0 : List.filter (fun i => i % bs == 0) [m] = [] := by
        simp [hmb]
      rw [hm0, List.append_nil]
      exact ih hm (by omega)

theorem sliceStarts_rec (bs n : Nat) (hbs : 0 < bs) (hn : 0 < n) :
    TCTS.sliceStarts n bs
      = 0 :: (TCTS.sliceStarts (n - bs) bs).map (fun i => bs + i) := by
  rcases le_or_lt n bs with hle | hlt
  · rw [sliceStarts_eq_single bs n hn hle]
    rw [show n - bs = 0 by omega, sliceStarts_zero]
    rfl
  · have hsplit : n = bs + (n - bs) := by omega
    have hL : TCTS.sliceStarts n bs
        = (List.range (bs + (n - bs))).filter (fun i => i % bs == 0) := by
      rw [← hsplit]
      rfl
    rw [hL, List.range_add, List.filter_append]
    have h1 : (List.range bs).filter (fun i => i % bs == 0) = [0] :=
      sliceStarts_eq_single bs bs hbs le_rfl
    have h2 : ((List.range (n - bs)).map (fun i => bs + i)).filter (fun i => i % bs == 0)
        = ((List.range (n - bs)).filter (fun i => i % bs == 0)).map (fun i => bs + i) := by
      rw [List.filter_map]
      have hp : ((fun i => i % bs == 0) ∘ (fun i => bs + i))
          = (fun i => i % bs == 0) := by
        funext i
        simp [Function.comp, Nat.add_mod_left]
      rw [hp]
    rw [h1, h2]
    rfl

theorem keptStarts_rec (bs n : Nat) (hbs : 0 < bs) :
    TCTS.keptStarts n bs
      = if bs ≤ n then 0 :: (TCTS.keptStarts (n - bs) bs).map (fun i => bs + i)
        else [] := by
  rcases Nat.eq_zero_or_pos n with h0 | hn
  · subst h0
    rw [if_neg (by omega)]
    rfl
  · have hL : TCTS.keptStarts n bs
        = (TCTS.sliceStarts n bs).takeWhile (fun i => decide (bs ≤ n - i)) := rfl
    rw [hL, sliceStarts_rec bs n hbs hn]
    rcases le_or_lt bs n with hle | hlt
    · rw [List.takeWhile_cons_of_pos (by simpa using hle)]
      rw [if_pos hle]
      rw [List.takeWhile_map]
      have hp : ((fun i => decide (bs ≤ n - i)) ∘ (fun i => bs + i))
          = (fun i => decide (bs ≤ n - bs - i)) := by
        funext i
        simp only [Function.comp]
        rw [decide_eq_decide]
        omega
      rw [hp]
      rfl
    · rw [List.takeWhile_cons_of_neg (by simpa using hlt)]
      rw [if_neg (by omega)]

theorem keptStarts_length (bs : Nat) (hbs : 0 < bs) :
    ∀ n, (TCTS.keptStarts n bs).length = n / bs := by
  intro n
  induction n using Nat.strong_induction_on with
  | _ n ih =>
    rw [keptStarts_rec bs n hbs]
    rcases le_or_lt bs n with hle | hlt
    · rw [if_pos hle]
      have hrec : n / bs = (n - bs) / bs + 1 := Nat.div_eq_sub_div hbs hle
      have hlt2 : n - bs < n := by omega
      simp [ih (n - bs) hlt2, hrec]
    · rw [if_neg (by omega)]
      rw [Nat.div_eq_of_lt hlt]
      rfl

theorem sliceStarts_length (bs : Nat) (hbs : 0 < bs) :
    ∀ n, (TCTS.sliceStarts n bs).length = (n + bs - 1) / bs := by
  intro n
  induction n using Nat.strong_induction_on with
  | _ n ih =>
    rcases Nat.eq_zero_or_pos n with h0 | hn
    · subst h0
      rw [sliceStarts_zero]
      rw [show (0 + bs - 1) / bs = 0 from Nat.div_eq_of_lt (by omega)]
      rfl
    · rw [sliceStarts_rec bs n hbs hn]
      have hlt2 : n - bs < n := by omega
      have hstep : (n + bs - 1) / bs = (n - 1) / bs + 1 := by
        have h1 : bs ≤ n + bs - 1 := by omega
        rw [Nat.div_eq_sub_div hbs h1]
        congr 2
        omega
      rcases le_or_lt bs n with hle | hlt
      · have harg : n - bs + bs - 1 = n - 1 := by omega
        simp only [List.length_cons, List.length_map]
        rw [ih (n - bs) hlt2, harg, hstep]
      · have harg : n - bs = 0 := by omega
        simp only [List.length_cons, List.length_map, harg]
        rw [sliceStarts_zero]
        rw [hstep]
        rw [show (n - 1) / bs = 0 from Nat.div_eq_of_lt (by omega)]
        rfl

theorem list_take_add {α : Type} (l : List α) (m k : Nat) :
    l.take (m + k) = l.take m ++ (l.drop m).take k := by
  induction l generalizing m with
  | nil => simp
  | cons x t ih =>
    cases m with
    | zero => simp
    | succ m0 =>
      simp only [Nat.succ_add, List.take_succ_cons, List.drop_succ_cons, List.cons_append]
      rw [ih m0]

theorem trainChunks_flatten {α : Type} (bs : Nat) (hbs : 0 < bs) :
    ∀ (n : Nat) (xs : List α), xs.length = n →
    (TCTS.trainChunks bs xs).flatten = xs.take (n / bs * bs) := by
  intro n
  induction n using Nat.strong_induction_on with
  | _ n ih =>
    intro xs hlen
    unfold TCTS.trainChunks
    rw [hlen, keptStarts_rec bs n hbs]
    rcases le_or_lt bs n with hle | hlt
    · rw [if_pos hle]
      have hdroplen : (xs.drop bs).length = n - bs := by
        rw [List.length_drop, hlen]
      have hlt2 : n - bs < n := by omega
      have htail : ((TCTS.keptStarts (n - bs) bs).map (fun i => bs + i)).map
            (fun b => (xs.drop b).take bs)
          = (TCTS.keptStarts (n - bs) bs).map (fun b => ((xs.drop bs).drop b).take bs) := by
        rw [List.map_map]
        apply List.map_congr_left
        intro b _
        simp only [Function.comp]
        rw [List.drop_drop]
      rw [List.map_cons, htail, List.flatten_cons]
      have hihtail : ((TCTS.keptStarts (n - bs) bs).map
            (fun b => ((xs.drop bs).drop b).take bs)).flatten
          = (xs.drop bs).take ((n - bs) / bs * bs) := by
        have := ih (n - bs) hlt2 (xs.drop bs) hdroplen
        unfold TCTS.trainChunks at this
        rw [hdroplen] at this
        exact this
      rw [hihtail, List.drop_zero]
      rw [← list_take_add]
      congr 1
      rw [Nat.div_eq_sub_div hbs hle, Nat.add_mul, one_mul]
      omega
    · rw [if_neg (by omega)]
      rw [Nat.div_eq_of_lt hlt]
      simp

theorem trainChunks_full {α : Type} (bs : Nat) (xs : List α) :
    ∀ c ∈ TCTS.trainChunks bs xs, c.length = bs := by
  intro c hc
  unfold TCTS.trainChunks at hc
  rcases List.mem_map.mp hc with ⟨b, hb, rfl⟩
  unfold TCTS.keptStarts at hb
  have hkept : bs ≤ xs.length - b := by
    have h2 := List.mem_takeWhile_imp hb
    simpa using h2
  rw [List.length_take, List.length_drop]
  omega

theorem predict_core_covers {α : Type} (bs : Nat) (hbs : 0 < bs) (f : α → ℚ) :
    ∀ (n : Nat) (xs : List α), xs.length = n →
    ((TCTS.predictChunks bs xs).map (List.map f)).flatten = xs.map f := by
  intro n
  induction n using Nat.strong_induction_on with
  | _ n ih =>
    intro xs hlen
    rcases Nat.eq_zero_or_pos n with h0 | hn
    · subst h0
      rw [List.length_eq_zero.mp hlen]
      rfl
    · unfold TCTS.predictChunks
      rw [hlen, sliceStarts_rec bs n hbs hn]
      have hdroplen : (xs.drop bs).length = n - bs := by
        rw [List.length_drop, hlen]
      have hlt2 : n - bs < n := by omega
      have htail : ((TCTS.sliceStarts (n - bs) bs).map (fun i => bs + i)).map
            (fun b => (xs.drop b).take (TCTS.sliceEnd n bs b - b))
          = (TCTS.sliceStarts (n - bs) bs).map
            (fun b => ((xs.drop bs).drop b).take (TCTS.sliceEnd (n - bs) bs b - b)) := by
        rw [List.map_map]
        apply List.map_congr_left
        intro b hbmem
        have hblt : b < n - bs := by
          have := List.mem_filter.mp hbmem
          exact List.mem_range.mp this.1
        simp only [Function.comp]
        rw [List.drop_drop]
        congr 1
        unfold TCTS.sliceEnd
        rcases lt_or_le ((n - bs) - b) bs with hcase | hcase
        · rw [if_pos (by omega), if_pos (by omega)]
          omega
        · rw [if_neg (by omega), if_neg (by omega)]
          omega
      rw [List.map_cons, htail, List.map_cons, List.flatten_cons]
      have hihtail : (((TCTS.sliceStarts (n - bs) bs).map
            (fun b => ((xs.drop bs).drop b).take (TCTS.sliceEnd (n - bs) bs b - b))).map
              (List.map f)).flatten
          = (xs.drop bs).map f := by
        have := ih (n - bs) hlt2 (xs.drop bs) hdroplen
        unfold TCTS.predictChunks at this
        rw [hdroplen] at this
        exact this
      rw [hihtail]
      rw [List.drop_zero, Nat.sub_zero]
      unfold TCTS.sliceEnd
      rcases lt_or_le n bs with hcase | hcase
      · rw [if_pos (by omega)]
        have hxs : xs.take n = xs := by
          rw [← hlen]
          exact List.take_length xs
        have hdrop : xs.drop bs = [] := List.drop_eq_nil_of_le (by omega)
        rw [hxs, hdrop]
        simp
      · rw [if_neg (by omega), Nat.zero_add]
        rw [← List.map_append, List.take_append_drop]

/-- C4: with a positive batch size and a nonempty input, inference processes
every input row in original order (so the returned series, keyed by the
original index, covers exactly the input index set), while the training-style
loops process only full batches, dropping the trailing partial batch; the
inference batch count exceeds the training batch count by at most one. -/
theorem C4_trailing_batch_policy {α : Type} (f : α → ℚ) (bs : Nat)
    (xs : List α) (hbs : 1 ≤ bs) (hne : 0 < xs.length) :
    TCTS.predict true f bs xs = Except.ok (xs.map f)
    ∧ (TCTS.trainChunks bs xs).flatten = xs.take (xs.length / bs * bs)
    ∧ (∀ c ∈ TCTS.trainChunks bs xs, c.length = bs)
    ∧ (TCTS.trainChunks bs xs).length = xs.length / bs
    ∧ (TCTS.predictChunks bs xs).length = (xs.length + bs - 1) / bs
    ∧ (TCTS.trainChunks bs xs).length ≤ (TCTS.predictChunks bs xs).length
    ∧ (TCTS.predictChunks bs xs).length ≤ (TCTS.trainChunks bs xs).length + 1 := by
  have hcover := predict_core_covers bs hbs f xs.length xs rfl
  have hkc : (TCTS.trainChunks bs xs).length = xs.length / bs := by
    unfold TCTS.trainChunks
    rw [List.length_map]
    exact keptStarts_length bs hbs xs.length
  have hpc : (TCTS.predictChunks bs xs).length = (xs.length + bs - 1) / bs := by
    unfold TCTS.predictChunks
    rw [List.length_map]
    exact sliceStarts_length bs hbs xs.length
  refine ⟨?_, trainChunks_flatten bs hbs xs.length xs rfl,
    trainChunks_full bs xs, hkc, hpc, ?_, ?_⟩
  · unfold TCTS.predict
    rw [if_neg (by simp)]
    rw [hcover]
  · rw [hkc, hpc]
    exact Nat.div_le_div_right (by omega)
  · rw [hkc, hpc]
    have h1 : (xs.length + bs - 1) / bs ≤ (xs.length + bs) / bs :=
      Nat.div_le_div_right (by omega)
    have h2 : (xs.length + bs) / bs = xs.length / bs + 1 :=
      Nat.add_div_right xs.length hbs
    omega

/-- Witness for C4 at batch size 2 over three rows: inference returns all
three predictions, training keeps one full batch of two rows. -/
theorem C4_trailing_batch_witness :
    ((1 : Nat) ≤ 2 ∧ 0 < ([[1], [2], [3]] : List (List ℚ)).length)
    ∧ (TCTS.predict true (fun r => r.getD 0 0) 2 ([[1], [2], [3]] : List (List ℚ))
        = Except.ok ([[1], [2], [3]].map (fun r => r.getD 0 0))
      ∧ (TCTS.trainChunks 2 ([[1], [2], [3]] : List (List ℚ))).flatten
          = [[1], [2], [3]].take (([[1], [2], [3]] : List (List ℚ)).length / 2 * 2)
      ∧ (∀ c ∈ TCTS.trainChunks 2 ([[1], [2], [3]] : List (List ℚ)), c.length = 2)
      ∧ (TCTS.trainChunks 2 ([[1], [2], [3]] : List (List ℚ))).length
          = ([[1], [2], [3]] : List (List ℚ)).length / 2
      ∧ (TCTS.predictChunks 2 ([[1], [2], [3]] : List (List ℚ))).length
          = (([[1], [2], [3]] : List (List ℚ)).length + 2 - 1) / 2
      ∧ (TCTS.trainChunks 2 ([[1], [2], [3]] : List (List ℚ))).length
          ≤ (TCTS.predictChunks 2 ([[1], [2], [3]] : List (List ℚ))).length
      ∧ (TCTS.predictChunks 2 ([[1], [2], [3]] : List (List ℚ))).length
          ≤ (TCTS.trainChunks 2 ([[1], [2], [3]] : List (List ℚ))).length + 1) :=
  ⟨⟨by decide, by decide⟩,
    C4_trailing_batch_policy (fun r => r.getD 0 0) 2 [[1], [2], [3]]
      (by decide) (by decide)⟩

namespace TCTS

/-- Embedding of TCTS.test_epoch (pytorch_tcts.py lines 231-256): the
forecast network is put in eval mode (self.fore_model.eval(), line 237),
making its forward pass the deterministic function fore_eval with dropout
inactive; the samples are visited in order, batched with the trailing
partial batch dropped; each batch contributes
torch.mean((pred - label[:, abs(self.target_label)]) ** 2) and the result is
np.mean over the per-batch losses.  No backward pass happens and the loss is
read out with .item(), so the returned number is a pure function of the
eval-mode forward map. -/
def test_epoch {α : Type} (fore_eval : α → ℚ) (bs : Nat) (xs : List α)
    (ys : List (List ℚ)) (target_label : Int) : ℚ :=
  mean ((keptStarts xs.length bs).map (fun i =>
    mean ((((xs.drop i).take bs).zip ((ys.drop i).take bs)).map
      (fun p => (fore_eval p.1 - p.2.getD target_label.natAbs 0) ^ 2))))

end TCTS

theorem zip_take_take {α β : Type} (l1 : List α) (l2 : List β) (n : Nat) :
    (l1.take n).zip (l2.take n) = (l1.zip l2).take n := by
  induction l1 generalizing l2 n with
  | nil => simp
  | cons x t ih =>
    cases l2 with
    | nil => simp
    | cons y t2 =>
      cases n with
      | zero => simp
      | succ m =>
        simp only [List.take_succ_cons, List.zip_cons_cons]
        rw [ih]

theorem zip_drop_drop {α β : Type} (l1 : List α) (l2 : List β) (n : Nat) :
    (l1.drop n).zip (l2.drop n) = (l1.zip l2).drop n := by
  induction l1 generalizing l2 n with
  | nil => simp
  | cons x t ih =>
    cases l2 with
    | nil => simp
    | cons y t2 =>
      cases n with
      | zero => simp
      | succ m =>
        simp only [List.drop_succ_cons, List.zip_cons_cons]
        rw [ih]

/-- The mean of per-batch means over equally sized batches is the mean of the
concatenation. -/
theorem mean_chunk_means (bs : Nat) (_hbs : 0 < bs) (ls : List (List ℚ))
    (hlen : ∀ c ∈ ls, c.length = bs) :
    mean (ls.map mean) = mean ls.flatten := by
  have h1 : ls.map mean = (ls.map List.sum).map (fun s => s / (bs : ℚ)) := by
    rw [List.map_map]
    apply List.map_congr_left
    intro c hc
    simp only [Function.comp, mean]
    rw [hlen c hc]
  have hflatlen : ls.flatten.length = ls.length * bs := by
    rw [List.length_flatten]
    have hall : ∀ y ∈ ls.map List.length, y = bs := by
      intro y hy
      rcases List.mem_map.mp hy with ⟨c, hc, rfl⟩
      exact hlen c hc
    rw [List.sum_eq_card_nsmul _ bs hall, List.length_map, smul_eq_mul]
  rw [h1]
  unfold mean
  rw [list_sum_map_div, List.length_map, List.length_map, List.sum_flatten, hflatlen]
  rw [div_div]
  congr 1
  push_cast
  ring

/-- Averaging the per-batch means of the kept full batches recovers the
global mean when the batch size divides the length. -/
theorem mean_over_kept (bs : Nat) (hbs : 0 < bs) (l : List ℚ)
    (hdvd : bs ∣ l.length) :
    mean ((TCTS.keptStarts l.length bs).map (fun i => mean ((l.drop i).take bs)))
      = mean l := by
  have h1 : (TCTS.keptStarts l.length bs).map (fun i => mean ((l.drop i).take bs))
      = (TCTS.trainChunks bs l).map mean := by
    unfold TCTS.trainChunks
    rw [List.map_map]
    rfl
  rw [h1]
  rw [mean_chunk_means bs hbs _ (trainChunks_full bs l)]
  congr 1
  rw [trainChunks_flatten bs hbs l.length l rfl]
  rw [Nat.div_mul_cancel hdvd]
  exact List.take_length l

/-- C7: test_epoch evaluates the forecast network alone, in eval mode (its
deterministic forward map fore_eval), and when the batch size divides the
sample count it returns exactly the mean squared error of the prediction
against the label at horizon index abs(target_label) over all samples. -/
theorem C7_test_epoch_is_mse_at_abs_target {α : Type}
    (fore_eval : α → ℚ) (bs : Nat) (xs : List α) (ys : List (List ℚ))
    (target_label : Int) (hbs : 0 < bs) (hlen : ys.length = xs.length)
    (hdvd : bs ∣ xs.length) :
    TCTS.test_epoch fore_eval bs xs ys target_label
      = mean ((xs.zip ys).map
          (fun p => (fore_eval p.1 - p.2.getD target_label.natAbs 0) ^ 2)) := by
  have hzlen : ((xs.zip ys).map
      (fun p => (fore_eval p.1 - p.2.getD target_label.natAbs 0) ^ 2)).length
      = xs.length := by
    rw [List.length_map, List.length_zip, hlen, min_self]
  have hbatch : ∀ i : Nat,
      (((xs.drop i).take bs).zip ((ys.drop i).take bs)).map
        (fun p => (fore_eval p.1 - p.2.getD target_label.natAbs 0) ^ 2)
      = ((((xs.zip ys).map
          (fun p => (fore_eval p.1 - p.2.getD target_label.natAbs 0) ^ 2)).drop i).take bs) := by
    intro i
    rw [zip_take_take, zip_drop_drop, List.map_take, List.map_drop]
  unfold TCTS.test_epoch
  have hmaps : (TCTS.keptStarts xs.length bs).map (fun i =>
        mean ((((xs.drop i).take bs).zip ((ys.drop i).take bs)).map
          (fun p => (fore_eval p.1 - p.2.getD target_label.natAbs 0) ^ 2)))
      = (TCTS.keptStarts xs.length bs).map (fun i =>
        mean ((((xs.zip ys).map
          (fun p => (fore_eval p.1 - p.2.getD target_label.natAbs 0) ^ 2)).drop i).take bs)) := by
    apply List.map_congr_left
    intro i _
    rw [hbatch i]
  rw [hmaps]
  rw [show TCTS.keptStarts xs.length bs
      = TCTS.keptStarts ((xs.zip ys).map
          (fun p => (fore_eval p.1 - p.2.getD target_label.natAbs 0) ^ 2)).length bs
    from by rw [hzlen]]
  exact mean_over_kept bs hbs _ (by rw [hzlen]; exact hdvd)

/-- Witness for C7: two samples, batch size 2, target_label -1, so the label
column is index 1. -/
theorem C7_test_epoch_witness :
    ((0 : Nat) < 2
      ∧ ([[5, 6], [7, 8]] : List (List ℚ)).length = ([[1], [2]] : List (List ℚ)).length
      ∧ 2 ∣ ([[1], [2]] : List (List ℚ)).length)
    ∧ TCTS.test_epoch (fun r => r.getD 0 0) 2 ([[1], [2]] : List (List ℚ))
        [[5, 6], [7, 8]] (-1)
      = mean ((([[1], [2]] : List (List ℚ)).zip [[5, 6], [7, 8]]).map
          (fun p => (p.1.getD 0 0 - p.2.getD (Int.natAbs (-1)) 0) ^ 2)) :=
  ⟨⟨by decide, by decide, by decide⟩,
    C7_test_epoch_is_mse_at_abs_target (fun r => r.getD 0 0) 2 [[1], [2]]
      [[5, 6], [7, 8]] (-1) (by decide) (by decide) (by decide)⟩

namespace TCTS

/-- The epoch-level control state of TCTS.fit (pytorch_tcts.py lines
279-314): best validation loss so far (none stands for the initial np.inf),
the epoch that achieved it, the stall counter stop_round, and the epoch whose
parameter snapshots were last written to the checkpoint files (none while no
checkpoint exists). -/
structure FitState where
  best_loss : Option ℚ
  best_epoch : Nat
  stop_round : Nat
  saved : Option Nat

/-- The strict-improvement test val_loss < best_loss of line 296, where the
initial best_loss is np.inf so any finite loss improves. -/
def improves (val : ℚ) : Option ℚ → Bool
  | none => true
  | some b => decide (val < b)

/-- One epoch tail of TCTS.fit (lines 296-307): on strict improvement the
best loss and epoch are recorded, the stall counter resets and both model
snapshots are saved (overwriting the checkpoint); otherwise the stall counter
increments and the Boolean reports whether it reached early_stop, which
breaks the loop. -/
def fitStep (early_stop epoch : Nat) (val : ℚ) (s : FitState) : FitState × Bool :=
  if improves val s.best_loss then
    ({ best_loss := some val, best_epoch := epoch, stop_round := 0,
       saved := some epoch }, false)
  else
    let sr := s.stop_round + 1
    ({ s with stop_round := sr }, decide (early_stop ≤ sr))

/-- The epoch loop of TCTS.fit (lines 285-307), driven by the validation-loss
sequence: losses e is the test_epoch value on the validation split after
training epoch e.  Returns the final control state and the number of epochs
executed; the loop stops early as soon as fitStep reports the break. -/
def fitLoop (losses : Nat → ℚ) (early_stop : Nat) :
    Nat → Nat → FitState → FitState × Nat
  | 0, epoch, s => (s, epoch)
  | left + 1, epoch, s =>
    let r := fitStep early_stop epoch (losses epoch) s
    if r.2 then (r.1, epoch + 1) else fitLoop losses early_stop left (epoch + 1) r.1

/-- The observable outcome of TCTS.fit (lines 279-314): the final control
state, the number of epochs run, the parameters reloaded from the checkpoint
files (lines 310-313), and the fitted flag set at line 314.  foreParams e and
weightParams e are the parameter snapshots of the two networks after training
epoch e, which is what the checkpoint written during epoch e holds. -/
structure FitOutcome (P : Type) where
  state : FitState
  epochs_run : Nat
  loaded_fore : Option P
  loaded_weight : Option P
  fitted : Bool

/-- Embedding of TCTS.fit: run the epoch loop from epoch 0 with best_loss =
np.inf, stop_round = 0 and no checkpoint, then reload both networks from the
last-written checkpoint and mark the model fitted. -/
def fit (P : Type) (foreParams weightParams : Nat → P) (losses : Nat → ℚ)
    (n_epochs early_stop : Nat) : FitOutcome P :=
  let r := fitLoop losses early_stop n_epochs 0
    { best_loss := none, best_epoch := 0, stop_round := 0, saved := none }
  { state := r.1, epochs_run := r.2,
    loaded_fore := r.1.saved.map foreParams,
    loaded_weight := r.1.saved.map weightParams,
    fitted := true }

end TCTS

/-- The loop invariant of the fit epoch loop once a checkpoint exists: the
saved epoch is an executed epoch achieving the minimum validation loss so
far, and best_loss holds that minimum. -/
def FitInv (losses : Nat → ℚ) (k : Nat) (s : TCTS.FitState) : Prop :=
  ∃ b, s.saved = some b ∧ b < k ∧ (∀ e, e < k → losses b ≤ losses e)
    ∧ s.best_loss = some (losses b)


theorem fitLoop_invariant (losses : Nat → ℚ) (es : Nat) (hes : 1 ≤ es) :
    ∀ (left k : Nat) (s : TCTS.FitState), FitInv losses k s → s.stop_round < es →
    FitInv losses (TCTS.fitLoop losses es left k s).2 (TCTS.fitLoop losses es left k s).1
    ∧ k ≤ (TCTS.fitLoop losses es left k s).2
    ∧ (TCTS.fitLoop losses es left k s).2 ≤ k + left
    ∧ ((TCTS.fitLoop losses es left k s).2 < k + left →
        (TCTS.fitLoop losses es left k s).1.stop_round = es) := by
  intro left
  induction left with
  | zero =>
    intro k s hinv _
    refine ⟨hinv, le_rfl, le_rfl, ?_⟩
    intro h
    simp only [TCTS.fitLoop] at h
    omega
  | succ m ih =>
    intro k s hinv hsr
    rcases hinv with ⟨b, hsaved, hblt, hbmin, hbest⟩
    by_cases himp : TCTS.improves (losses k) s.best_loss = true
    · have hstep : TCTS.fitStep es k (losses k) s
          = ({ best_loss := some (losses k), best_epoch := k, stop_round := 0,
               saved := some k }, false) := by
        unfold TCTS.fitStep
        rw [if_pos himp]
      have hlt : losses k < losses b := by
        rw [hbest] at himp
        exact of_decide_eq_true himp
      have hinv2 : FitInv losses (k + 1)
          { best_loss := some (losses k), best_epoch := k, stop_round := 0,
            saved := some k } := by
        refine ⟨k, rfl, by omega, ?_, rfl⟩
        intro e he
        rcases Nat.lt_succ_iff_lt_or_eq.mp he with h | h
        · exact le_trans (le_of_lt hlt) (hbmin e h)
        · rw [h]
      have hloop : TCTS.fitLoop losses es (m + 1) k s
          = TCTS.fitLoop losses es m (k + 1)
            { best_loss := some (losses k), best_epoch := k, stop_round := 0,
              saved := some k } := by
        show (let r := TCTS.fitStep es k (losses k) s;
          if r.2 then (r.1, k + 1) else TCTS.fitLoop losses es m (k + 1) r.1) = _
        rw [hstep]
        rfl
      rw [hloop]
      obtain ⟨h1, h2, h3, h4⟩ := ih (k + 1) _ hinv2 (by show (0 : Nat) < es; omega)
      refine ⟨h1, by omega, by omega, ?_⟩
      intro h
      exact h4 (by omega)
    · have himpf : TCTS.improves (losses k) s.best_loss = false := by
        cases h : TCTS.improves (losses k) s.best_loss with
        | false => rfl
        | true => exact absurd h himp
      have hge : losses b ≤ losses k := by
        rw [hbest] at himpf
        unfold TCTS.improves at himpf
        exact le_of_not_lt (of_decide_eq_false himpf)
      have hstep : TCTS.fitStep es k (losses k) s
          = ({ s with stop_round := s.stop_round + 1 },
             decide (es ≤ s.stop_round + 1)) := by
        unfold TCTS.fitStep
        rw [if_neg (by simp [himpf])]
      have hinv2 : FitInv losses (k + 1) { s with stop_round := s.stop_round + 1 } := by
        refine ⟨b, hsaved, by omega, ?_, hbest⟩
        intro e he
        rcases Nat.lt_succ_iff_lt_or_eq.mp he with h | h
        · exact hbmin e h
        · rw [h]
          exact hge
      by_cases hstop : es ≤ s.stop_round + 1
      · have hloop : TCTS.fitLoop losses es (m + 1) k s
            = ({ s with stop_round := s.stop_round + 1 }, k + 1) := by
          show (let r := TCTS.fitStep es k (losses k) s;
            if r.2 then (r.1, k + 1) else TCTS.fitLoop losses es m (k + 1) r.1) = _
          rw [hstep]
          dsimp only
          rw [if_pos (decide_eq_true hstop)]
        rw [hloop]
        refine ⟨hinv2, Nat.le_succ k, by omega, fun _ => ?_⟩
        show s.stop_round + 1 = es
        omega
      · have hloop : TCTS.fitLoop losses es (m + 1) k s
            = TCTS.fitLoop losses es m (k + 1)
              { s with stop_round := s.stop_round + 1 } := by
          show (let r := TCTS.fitStep es k (losses k) s;
            if r.2 then (r.1, k + 1) else TCTS.fitLoop losses es m (k + 1) r.1) = _
          rw [hstep]
          dsimp only
          rw [if_neg (by simpa using hstop)]
        rw [hloop]
        obtain ⟨h1, h2, h3, h4⟩ := ih (k + 1) _ hinv2
          (by show s.stop_round + 1 < es; omega)
        refine ⟨h1, by omega, by omega, ?_⟩
        intro h
        exact h4 (by omega)


/-- C2: for every validation-loss sequence, with at least one epoch and a
positive early-stop patience, fit marks the model fitted, runs at most
n_epochs epochs, reloads both networks from the checkpoint of an executed
epoch whose validation loss is minimal among all executed epochs, terminates
early exactly when the stall counter reaches early_stop, and each epoch tail
resets the counter and saves on strict improvement while incrementing the
counter otherwise. -/
theorem C2_fit_checkpoint_and_early_stop (P : Type) (fp wp : Nat → P)
    (losses : Nat → ℚ) (n es : Nat) (hn : 1 ≤ n) (hes : 1 ≤ es) :
    (TCTS.fit P fp wp losses n es).fitted = true
    ∧ (TCTS.fit P fp wp losses n es).epochs_run ≤ n
    ∧ (∃ b, (TCTS.fit P fp wp losses n es).state.saved = some b
        ∧ b < (TCTS.fit P fp wp losses n es).epochs_run
        ∧ (∀ e, e < (TCTS.fit P fp wp losses n es).epochs_run → losses b ≤ losses e)
        ∧ (TCTS.fit P fp wp losses n es).loaded_fore = some (fp b)
        ∧ (TCTS.fit P fp wp losses n es).loaded_weight = some (wp b))
    ∧ ((TCTS.fit P fp wp losses n es).epochs_run < n →
        (TCTS.fit P fp wp losses n es).state.stop_round = es)
    ∧ (∀ (ep : Nat) (v : ℚ) (s : TCTS.FitState),
        (TCTS.improves v s.best_loss = true →
          (TCTS.fitStep es ep v s).1.stop_round = 0
          ∧ (TCTS.fitStep es ep v s).1.saved = some ep
          ∧ (TCTS.fitStep es ep v s).2 = false)
        ∧ (TCTS.improves v s.best_loss = false →
          (TCTS.fitStep es ep v s).1.stop_round = s.stop_round + 1
          ∧ (TCTS.fitStep es ep v s).1.saved = s.saved
          ∧ (TCTS.fitStep es ep v s).2 = decide (es ≤ s.stop_round + 1))) := by
  have hstepfacts : ∀ (ep : Nat) (v : ℚ) (s : TCTS.FitState),
      (TCTS.improves v s.best_loss = true →
        (TCTS.fitStep es ep v s).1.stop_round = 0
        ∧ (TCTS.fitStep es ep v s).1.saved = some ep
        ∧ (TCTS.fitStep es ep v s).2 = false)
      ∧ (TCTS.improves v s.best_loss = false →
        (TCTS.fitStep es ep v s).1.stop_round = s.stop_round + 1
        ∧ (TCTS.fitStep es ep v s).1.saved = s.saved
        ∧ (TCTS.fitStep es ep v s).2 = decide (es ≤ s.stop_round + 1)) := by
    intro ep v s
    constructor
    · intro h
      unfold TCTS.fitStep
      rw [if_pos h]
      exact ⟨rfl, rfl, rfl⟩
    · intro h
      unfold TCTS.fitStep
      rw [if_neg (by simp [h])]
      exact ⟨rfl, rfl, rfl⟩
  rcases Nat.exists_eq_add_of_le hn with ⟨m, hm⟩
  subst hm
  have hfirst : TCTS.fitLoop losses es (1 + m) 0
      { best_loss := none, best_epoch := 0, stop_round := 0, saved := none }
      = TCTS.fitLoop losses es m 1
        { best_loss := some (losses 0), best_epoch := 0, stop_round := 0,
          saved := some 0 } := by
    rw [show (1 + m) = m + 1 by omega]
    rfl
  have hinv1 : FitInv losses 1
      { best_loss := some (losses 0), best_epoch := 0, stop_round := 0,
        saved := some 0 } := by
    refine ⟨0, rfl, by omega, ?_, rfl⟩
    intro e he
    rw [show e = 0 by omega]
  obtain ⟨h1, h2, h3, h4⟩ := fitLoop_invariant losses es hes m 1
    { best_loss := some (losses 0), best_epoch := 0, stop_round := 0,
      saved := some 0 } hinv1 (by show (0 : Nat) < es; omega)
  have hfit : TCTS.fit P fp wp losses (1 + m) es
      = { state := (TCTS.fitLoop losses es m 1
            { best_loss := some (losses 0), best_epoch := 0, stop_round := 0,
              saved := some 0 }).1,
          epochs_run := (TCTS.fitLoop losses es m 1
            { best_loss := some (losses 0), best_epoch := 0, stop_round := 0,
              saved := some 0 }).2,
          loaded_fore := ((TCTS.fitLoop losses es m 1
            { best_loss := some (losses 0), best_epoch := 0, stop_round := 0,
              saved := some 0 }).1.saved).map fp,
          loaded_weight := ((TCTS.fitLoop losses es m 1
            { best_loss := some (losses 0), best_epoch := 0, stop_round := 0,
              saved := some 0 }).1.saved).map wp,
          fitted := true } := by
    unfold TCTS.fit
    rw [hfirst]
  rw [hfit]
  rcases h1 with ⟨b, hsaved, hblt, hbmin, _⟩
  refine ⟨rfl, by dsimp only; omega, ⟨b, ?_, ?_, ?_, ?_, ?_⟩, ?_, hstepfacts⟩
  · exact hsaved
  · exact hblt
  · exact hbmin
  · dsimp only
    rw [hsaved]
    rfl
  · dsimp only
    rw [hsaved]
    rfl
  · intro h
    dsimp only at h
    exact h4 (by omega)

/-- Witness for C2 with losses 5, 10, 10, three epochs and patience 1: fit
terminates early after two epochs and is marked fitted. -/
theorem C2_fit_checkpoint_witness :
    ((1 : Nat) ≤ 3 ∧ (1 : Nat) ≤ 1)
    ∧ (TCTS.fit Unit (fun _ => ()) (fun _ => ())
        (fun e => if e = 0 then 5 else 10) 3 1).fitted = true
    ∧ (TCTS.fit Unit (fun _ => ()) (fun _ => ())
        (fun e => if e = 0 then 5 else 10) 3 1).epochs_run ≤ 3 :=
  ⟨⟨by decide, by decide⟩,
    (C2_fit_checkpoint_and_early_stop Unit (fun _ => ()) (fun _ => ())
      (fun e => if e = 0 then 5 else 10) 3 1 (by decide) (by decide)).1,
    (C2_fit_checkpoint_and_early_stop Unit (fun _ => ()) (fun _ => ())
      (fun e => if e = 0 then 5 else 10) 3 1 (by decide) (by decide)).2.1⟩

end Qlib
